import Mathlib

/-!
Shallow embedding of the runtime resolution and trigger engine of the
teflo repository (file `src/teflo/helpers.py`): the pure filter functions
`filter_actions_on_failed_status` (lines 596-606) and
`filter_notifications_on_trigger` (lines 623-663), the reference resolver
`fetch_assets` (lines 686-746), and the expression evaluator
`DataInjector` (lines 960-1096).

Python strings are modelled by `String`, Python attribute trees by the
tagged type `PyVal`, exceptions by `Except PyError`.  String primitives
of the source (`str.strip`, `str.split`, `str.replace`, `in`,
`re.findall` for the fixed pattern, `re.match` for the fixed exclusion
pattern, `int`) are spelled out over character lists so that every
definition evaluates by kernel reduction.
-/

namespace Teflo

/-- The opening brace character, written by code so that no brace appears
inside a string literal of this file. -/
def lbrace : Char := Char.ofNat 123

/-- The closing brace character. -/
def rbrace : Char := Char.ofNat 125

/-- The apostrophe character (appears in the word class of the exclusion
regex of `DataInjector`). -/
def apos : Char := Char.ofNat 39

/-- Characters removed by the Python method `str.strip` (ASCII whitespace;
the unicode space characters, which cannot occur in the scenarios of the
claims, are elided). -/
def isPySpace (c : Char) : Bool :=
  c == ' ' || c == '\t' || c == '\n' || c == '\r' || c == '\x0b' || c == '\x0c'

/-- The character list of a string. -/
def chars (s : String) : List Char := s.data

/-- The string with the given character list. -/
def ofChars (l : List Char) : String := ⟨l⟩

/-- Python `s.strip()`. -/
def pyStrip (s : String) : String :=
  ofChars ((((chars s).dropWhile isPySpace).reverse.dropWhile isPySpace).reverse)

/-- Python `s.split(sep)` for a one-character separator, on character
lists.  Splitting the empty string yields one empty part. -/
def splitCharList (sep : Char) : List Char → List (List Char)
  | [] => [[]]
  | c :: rest =>
    if c == sep then [] :: splitCharList sep rest
    else
      match splitCharList sep rest with
      | h :: t => (c :: h) :: t
      | [] => [[c]]

/-- Python `s.split(sep)` for a one-character separator. -/
def pySplit (s : String) (sep : Char) : List String :=
  (splitCharList sep (chars s)).map ofChars

/-- Whether `p` occurs as a contiguous sublist of the second list. -/
def hasSubListAux (p : List Char) : List Char → Bool
  | [] => p.isEmpty
  | c :: rest => p.isPrefixOf (c :: rest) || hasSubListAux p rest

/-- Python `sub in s` on strings: the substring test.  The empty string is
a substring of every string. -/
def strIn (sub s : String) : Bool := hasSubListAux (chars sub) (chars s)

/-- Python `s.replace(pat, rep)`: replace every non-overlapping occurrence,
scanning left to right.  The fuel argument bounds the recursion; it is
instantiated with the length of the scanned list, which suffices because
every step consumes at least one character (the source only calls replace
with a nonempty brace-wrapped pattern, and for an empty pattern this
model leaves the string unchanged). -/
def replaceFuel (pat rep : List Char) : Nat → List Char → List Char
  | _, [] => []
  | 0, l => l
  | fuel + 1, c :: rest =>
    if !pat.isEmpty && pat.isPrefixOf (c :: rest) then
      rep ++ replaceFuel pat rep fuel ((c :: rest).drop pat.length)
    else
      c :: replaceFuel pat rep fuel rest

/-- Python `s.replace(pat, rep)`. -/
def pyReplace (s pat rep : String) : String :=
  ofChars (replaceFuel (chars pat) (chars rep) (chars s).length (chars s))

/-- Python `int(s)`: optional surrounding whitespace, an optional sign and
a nonempty digit run (the underscore digit separators accepted by
`int`, irrelevant to the source scenarios, are elided).  `none` models an
uncaught `ValueError`. -/
def allDigits (l : List Char) : Bool := !l.isEmpty && l.all (fun c => c.isDigit)

/-- Accumulator pass turning a digit run into a number. -/
def digitsToNat : Nat → List Char → Nat
  | acc, [] => acc
  | acc, c :: rest => digitsToNat (acc * 10 + (c.toNat - 48)) rest

/-- Python `int(s)` returning `none` on a `ValueError`. -/
def parseIntPy (s : String) : Option Int :=
  match chars (pyStrip s) with
  | '-' :: ds => if allDigits ds then some (-(digitsToNat 0 ds : Int)) else none
  | '+' :: ds => if allDigits ds then some ((digitsToNat 0 ds : Int)) else none
  | ds => if allDigits ds then some ((digitsToNat 0 ds : Int)) else none

/-- One match of the regular expression `\{(.*?)\}` starting right after an
opening brace: the content up to the first closing brace, failing when a
newline (which `.` does not match) or the end of the string intervenes.
Returns the content and the characters after the closing brace. -/
def scanContent : List Char → Option (List Char × List Char)
  | [] => none
  | c :: rest =>
    if c == rbrace then some ([], rest)
    else if c == '\n' then none
    else
      match scanContent rest with
      | some (content, rest') => some (c :: content, rest')
      | none => none

/-- `re.findall` for the fixed pattern `\{(.*?)\}` of `DataInjector`
(helpers.py line 995): scan for an opening brace, take the shortest
newline-free content closed by a brace, and continue after it.  The fuel
is instantiated with the length of the list; every step consumes at least
one character. -/
def findBracesFuel : Nat → List Char → List String
  | _, [] => []
  | 0, _ => []
  | fuel + 1, c :: rest =>
    if c == lbrace then
      match scanContent rest with
      | some (content, rest') => ofChars content :: findBracesFuel fuel rest'
      | none => findBracesFuel fuel rest
    else
      findBracesFuel fuel rest

/-- All contents captured by `re.findall` of `\{(.*?)\}` on the string. -/
def findBraces (s : String) : List String :=
  findBracesFuel (chars s).length (chars s)

/-- A Python attribute value reachable by path traversal: a scalar string,
an ordered sequence, or a string-keyed mapping. -/
inductive PyVal where
  | str : String → PyVal
  | list : List PyVal → PyVal
  | dict : List (String × PyVal) → PyVal

/-- First-match association lookup, the model of a Python dict access by
string key (teflo builds these mappings with unique keys). -/
def lookupAssoc (d : List (String × PyVal)) (k : String) : Option PyVal :=
  match d with
  | [] => none
  | (k', v) :: rest => if k' == k then some v else lookupAssoc rest k

/-- A host resource of the scenario graph: its unique name, its group
membership list and its remaining attributes. -/
structure Host where
  name : String
  groups : List String
  attrs : List (String × PyVal)

/-- Python `getattr(host, attr)`: the distinguished fields `name` and
`groups` are attributes of the object like any other, the rest live in
`attrs`.  `none` models an absent attribute (`hasattr` false). -/
def pyGetattr (h : Host) (attr : String) : Option PyVal :=
  if attr == "name" then some (.str h.name)
  else if attr == "groups" then some (.list (h.groups.map .str))
  else lookupAssoc h.attrs attr

/-- Python truthiness of the current traversal value: `None`, the empty
string, the empty list and the empty mapping are falsy. -/
def truthy : Option PyVal → Bool
  | none => false
  | some (.str s) => !(s == "")
  | some (.list l) => !l.isEmpty
  | some (.dict d) => !d.isEmpty

/-- Whether the value is a scalar string (`isinstance(value, str)`). -/
def isStrVal : PyVal → Bool
  | .str _ => true
  | _ => false

/-- Whether the value is a mapping (`isinstance(value, dict)`). -/
def isDictVal : PyVal → Bool
  | .dict _ => true
  | _ => false

/-- The Python exceptions the evaluator can surface. -/
inductive PyError where
  | tefloError : String → PyError
  | attributeError : String → PyError
  | typeError : String → PyError
  | valueError : String → PyError
deriving DecidableEq

/-- Rendering of a value interpolated into an error message by `%s`; the
Python `str()` of a container is abbreviated (no claim depends on it). -/
def pyValText : PyVal → String
  | .str s => s
  | .list _ => "[...]"
  | .dict _ => ofChars [lbrace] ++ "..." ++ ofChars [rbrace]

/-- Outcome of a Python subscript `v[pos]` by integer (negative positions
index from the end): the value, an `IndexError`, or a `KeyError` (an
integer key into a string-keyed mapping). -/
inductive IndexOut where
  | ok : PyVal → IndexOut
  | idxErr : IndexOut
  | keyErr : IndexOut

/-- Python `v[pos]` for an integer position. -/
def pyIndex (v : PyVal) (pos : Int) : IndexOut :=
  match v with
  | .str s =>
    let n : Int := (chars s).length
    let i := if pos < 0 then pos + n else pos
    if 0 ≤ i ∧ i < n then
      match (chars s).get? i.toNat with
      | some c => .ok (.str (ofChars [c]))
      | none => .idxErr
    else .idxErr
  | .list l =>
    let n : Int := l.length
    let i := if pos < 0 then pos + n else pos
    if 0 ≤ i ∧ i < n then
      match l.get? i.toNat with
      | some x => .ok x
      | none => .idxErr
    else .idxErr
  | .dict _ => .keyErr

/-- Python word character for the exclusion regex: `\w` (modelled over
ASCII as alphanumeric or underscore) together with the two extra
characters of the bracket class of the pattern, the pipe and the
apostrophe. -/
def isWordTokChar (c : Char) : Bool :=
  c.isAlphanum || c == '_' || c == '|' || c == apos

/-- `re.match` of the exclusion pattern `^range|^[|.|$|@]|[\w|']+:` of
`DataInjector` (helpers.py line 998) against the stripped expression.
`re.match` anchors every alternative at the start of the string, so the
third alternative holds exactly when a nonempty run of word-class
characters followed by a colon is a prefix of the string. -/
def excluded (expr : String) : Bool :=
  let l := chars expr
  (chars "range").isPrefixOf l ||
  (match l with
   | c :: _ => c == '|' || c == '.' || c == '$' || c == '@'
   | [] => false) ||
  (let w := l.takeWhile isWordTokChar
   !w.isEmpty &&
   (match l.drop w.length with
    | c :: _ => c == ':'
    | [] => false))

/-- `DataInjector.host_exist` (helpers.py lines 1000-1013): the first host
of the injector whose name equals the node, a `TefloError` naming the
node when there is none. -/
def host_exist (hosts : List Host) (node : String) : Except PyError Host :=
  match hosts.find? (fun host => node == host.name) with
  | some host => .ok host
  | none => .error (.tefloError ("Node " ++ node ++ " not found!"))

/-- Outcome of one iteration of the traversal loop of
`DataInjector.inject`: proceed to the next path segment with the new
current value, or stop the traversal (`break`) with the final value. -/
inductive StepOut where
  | cont : Option PyVal → StepOut
  | brk : Option PyVal → StepOut

/-- The tail of the `except IndexError` handler of `DataInjector.inject`
(helpers.py lines 1075-1091), reached when the segment is not a host
attribute usable at this point: a still-unset current value raises
`AttributeError`; otherwise the segment is looked up as a key of the
current value, stepping into a nested mapping or taking a final value,
with a missing key raising `TefloError` and a non-mapping current value
raising an uncaught `TypeError`. -/
def noIndexElse (host : Host) (value : Option PyVal) (item : String) :
    Except PyError StepOut :=
  match value with
  | none => .error (.attributeError (item ++ " not found in host " ++ host.name ++ "!"))
  | some v =>
    match v with
    | .dict d =>
      match lookupAssoc d item with
      | none => .error (.tefloError (item ++ " not found in " ++ pyValText v))
      | some vi =>
        if isDictVal vi then .ok (.cont (some vi))
        else if truthy (some v) then .ok (.cont (some vi))
        else .ok (.cont (some v))
    | .str _ => .error (.typeError "string indices must be integers")
    | .list _ => .error (.typeError "list indices must be integers, not str")

/-- The `except IndexError` handler of `DataInjector.inject` (helpers.py
lines 1063-1074): the segment carries no usable list position, so it is
first tried as a host attribute (only while the current value is unset,
`index <= 0`); a scalar string attribute stops the traversal. -/
def noIndexStep (host : Host) (value : Option PyVal) (index : Nat) (item : String) :
    Except PyError StepOut :=
  match pyGetattr host item with
  | some av =>
    if index == 0 then
      if isStrVal av then .ok (.brk (some av)) else .ok (.cont (some av))
    else noIndexElse host value item
  | none => noIndexElse host value item

/-- One iteration of the `for index, item in enumerate(_vars)` loop of
`DataInjector.inject` (helpers.py lines 1043-1093), with the try/except
control flow of the source made explicit.  A segment with a bracket part
is split into key and integer position (an unparsable position is an
uncaught `ValueError`); the position indexes into `value[key]` when the
current value is truthy and into the host attribute `key` on the first
segment otherwise.  An `IndexError` anywhere in that — including a
bracketless segment — falls into `noIndexStep`; a `KeyError` raises
`TefloError`. -/
def traverseItem (host : Host) (value : Option PyVal) (index : Nat) (item : String) :
    Except PyError StepOut :=
  match pySplit item '[' with
  | key :: p1 :: _ =>
    let posStr := (pySplit p1 ']').headD ""
    match parseIntPy posStr with
    | none => .error (.valueError ("invalid literal for int(): " ++ posStr))
    | some pos =>
      if truthy value then
        match value with
        | some (.dict d) =>
          match lookupAssoc d key with
          | none => .error (.tefloError ("Unable to locate item " ++ item ++ "!"))
          | some v2 =>
            match pyIndex v2 pos with
            | .ok v3 => .ok (.cont (some v3))
            | .idxErr => noIndexStep host value index item
            | .keyErr => .error (.tefloError ("Unable to locate item " ++ item ++ "!"))
        | some (.str _) => .error (.typeError "string indices must be integers")
        | some (.list _) => .error (.typeError "list indices must be integers, not str")
        | none => .ok (.cont value)
      else
        match pyGetattr host key with
        | some av =>
          if index == 0 then
            match pyIndex av pos with
            | .ok v3 => if isStrVal v3 then .ok (.brk (some v3)) else .ok (.cont (some v3))
            | .idxErr => noIndexStep host value index item
            | .keyErr => .error (.tefloError ("Unable to locate item " ++ item ++ "!"))
          else .ok (.cont value)
        | none => .ok (.cont value)
  | _ => noIndexStep host value index item

/-- The whole `for index, item in enumerate(_vars)` loop: thread the
current value through the segments, stopping on `break` or on the first
raised exception. -/
def traverseVars (host : Host) : Nat → Option PyVal → List String → Except PyError (Option PyVal)
  | _, value, [] => .ok value
  | index, value, item :: rest =>
    match traverseItem host value index item with
    | .error e => .error e
    | .ok (.brk v) => .ok v
    | .ok (.cont v) => traverseVars host (index + 1) v rest

/-- The replacement target of `DataInjector.inject` (helpers.py line
1095): an opening brace, one space, the stripped expression, one space
and a closing brace. -/
def braceWrap (expr : String) : String :=
  ofChars (lbrace :: ' ' :: (chars expr ++ [' ', rbrace]))

/-- Body of the `for variable in variables` loop of `DataInjector.inject`
(helpers.py lines 1031-1095) for one stripped expression: an excluded
expression is skipped; otherwise the expression is split on dots, its
first segment must name a host, the remaining segments are traversed, and
the brace-wrapped expression is replaced by the reached value, which must
be a scalar string (replacing by `None` or a container is an uncaught
`TypeError`). -/
def processVariable (hosts : List Host) (command : String) (expr : String) :
    Except PyError String :=
  if excluded expr then .ok command
  else
    match pySplit expr '.' with
    | node :: segs =>
      match host_exist hosts node with
      | .error e => .error e
      | .ok host =>
        match traverseVars host 0 none segs with
        | .error e => .error e
        | .ok (some (.str s)) => .ok (pyReplace command (braceWrap expr) s)
        | .ok _ => .error (.typeError "replace() argument 2 must be str")
    | [] => .ok command

/-- The loop of `DataInjector.inject` over all found expressions, threading
the command being rewritten; a raised exception aborts the whole call, so
the partially rewritten local string is discarded exactly as in the
source. -/
def injectLoop (hosts : List Host) : List String → String → Except PyError String
  | [], command => .ok command
  | expr :: rest, command =>
    match processVariable hosts command expr with
    | .error e => .error e
    | .ok command' => injectLoop hosts rest command'

/-- `DataInjector.inject` (helpers.py lines 1015-1096): find every
brace-delimited expression, strip each, and process them in order; a
command without expressions is returned unchanged. -/
def inject (hosts : List Host) (command : String) : Except PyError String :=
  let exprs := (findBraces command).map pyStrip
  if exprs.isEmpty then .ok command
  else injectLoop hosts exprs command

/-- An action resource as far as `filter_actions_on_failed_status`
inspects it: its name and its status code (1 is the failed status). -/
structure Action where
  name : String
  status : Nat

/-- The scan of `filter_actions_on_failed_status` (helpers.py lines
602-605): the suffix `action_list[index:]` starting at the first action
with failed status, `none` when no action failed. -/
def findFailSuffix : List Action → Option (List Action)
  | [] => none
  | action_item :: rest =>
    if action_item.status == 1 then some (action_item :: rest)
    else findFailSuffix rest

/-- `filter_actions_on_failed_status` (helpers.py lines 596-606): return
the suffix from the first action with failed status onward; when no
action failed the original list is returned. -/
def filter_actions_on_failed_status (action_list : List Action) : List Action :=
  match findFailSuffix action_list with
  | some new_list => new_list
  | none => action_list

/-- A notification resource as far as `filter_notifications_on_trigger`
inspects it: its name, the four trigger predicate flags and the names of
the tasks whose outcome it cares about. -/
structure Notification where
  name : String
  on_demand : Bool
  on_start : Bool
  on_success : Bool
  on_failure : Bool
  on_tasks : List String
deriving DecidableEq

/-- Nonempty intersection of `set(on_tasks)` with a task-name list. -/
def tasksIntersect (on_tasks tasks : List String) : Bool :=
  on_tasks.any (fun t => tasks.contains t)

/-- `filter_notifications_on_trigger` (helpers.py lines 623-663).  The
state is one of the literals `on_demand`, `on_start`, `on_complete`; for
any other state the source falls off the end of the function and returns
`None`, modelled by `none`.  The boolean flag comparisons mirror the
`is True` / `is False` checks of the source. -/
def filter_notifications_on_trigger (state : String) (notify_list : List Notification)
    (passed_tasks failed_tasks : List String) : Option (List Notification) :=
  if state = "on_demand" then
    some (notify_list.filter (fun res => res.on_demand))
  else
    let notify_list := notify_list.filter (fun res => !res.on_demand)
    if state = "on_start" then
      some (notify_list.filter (fun res =>
        res.on_start && tasksIntersect res.on_tasks passed_tasks))
    else if state = "on_complete" then
      let nl := notify_list.filter (fun res => !res.on_start)
      let passed₁ := nl.filter (fun nt => nt.on_success && !nt.on_failure)
      let passed₂ := passed₁.filter (fun nt =>
        failed_tasks.isEmpty && tasksIntersect nt.on_tasks passed_tasks)
      let failed₁ := nl.filter (fun nt => nt.on_failure && !nt.on_success)
      let failed₂ := failed₁.filter (fun nt =>
        passed_tasks.isEmpty && tasksIntersect nt.on_tasks failed_tasks)
      let mixed₁ := nl.filter (fun nt => nt.on_success && nt.on_failure)
      let mixed₂ := mixed₁.filter (fun nt =>
        tasksIntersect nt.on_tasks failed_tasks || tasksIntersect nt.on_tasks passed_tasks)
      some (passed₂ ++ failed₂ ++ mixed₂)
    else none

/-- An entry of the reference list of a task: a plain string reference or
an already-bound host object. -/
inductive HostRef where
  | str : String → HostRef
  | obj : Host → HostRef

/-- `isinstance(item, string_types)` on a reference entry. -/
def isStrRef : HostRef → Bool
  | .str _ => true
  | .obj _ => false

/-- The string carried by a plain reference. -/
def refStr : HostRef → Option String
  | .str s => some s
  | .obj _ => none

/-- The body of the plain-string loop of `fetch_assets` (helpers.py lines
720-732) for one host, folding over the pair of the selected list and the
all-hosts list.  The literal `all` selects the host and short-circuits;
then an exact name match (the source tests it twice, by `in` and by a
filtered comprehension) selects and short-circuits; otherwise the group
loop — which has no break — appends the host once per group of the host
appearing in the reference list.  Hosts of this model always carry a
`groups` attribute, so the `hasattr` guard of the source holds. -/
def plainStep (all_hosts : Bool) (strs : List String) (acc : List Host × List Host)
    (host : Host) : List Host × List Host :=
  let allAcc := if all_hosts then acc.2 ++ [host] else acc.2
  if strs.contains "all" then (acc.1 ++ [host], allAcc)
  else if strs.contains host.name || !((strs.filter (fun h => h == host.name)).isEmpty) then
    (acc.1 ++ [host], allAcc)
  else
    (host.groups.foldl (fun hs g => if strs.contains g then hs ++ [host] else hs) acc.1,
     allAcc)

/-- The inner `for task_host in task[_type].hosts` loop of the
mixed/object branch of `fetch_assets` (helpers.py lines 737-742): the
first reference whose name equals the host name or whose name is a
substring of the host name matches (with break); taking `.name` of a
plain string entry is an uncaught `AttributeError`. -/
def objMatch (host : Host) : List HostRef → Except PyError Bool
  | [] => .ok false
  | .str _ :: _ => .error (.attributeError "str object has no attribute name")
  | .obj task_host :: rest =>
    if host.name == task_host.name || strIn task_host.name host.name then .ok true
    else objMatch host rest

/-- The mixed/object loop of `fetch_assets` (helpers.py lines 734-742)
over the hosts, threading the selected and all-hosts accumulators. -/
def objMode (all_hosts : Bool) (taskHosts : List HostRef) :
    List Host → List Host → List Host → Except PyError (List Host × List Host)
  | [], sel, alls => .ok (sel, alls)
  | host :: rest, sel, alls =>
    let alls := if all_hosts then alls ++ [host] else alls
    match objMatch host taskHosts with
    | .error e => .error e
    | .ok true => objMode all_hosts taskHosts rest (sel ++ [host]) alls
    | .ok false => objMode all_hosts taskHosts rest sel alls

/-- `fetch_assets` (helpers.py lines 686-746), on the reference list of
the task (the `resource`/`package` indirection that merely locates that
list inside the task mapping is elided).  Returns the final `hosts`
field of the task — overwritten by the selected hosts only when some
host matched — together with the `all_hosts` field.  In the plain-string
branch the membership tests of the source compare against the (then all
string) reference entries, extracted here by `refStr`. -/
def fetch_assets (hosts : List Host) (taskHosts : List HostRef) (all_hosts : Bool) :
    Except PyError (List HostRef × List Host) :=
  if taskHosts.all isStrRef then
    let strs := taskHosts.filterMap refStr
    let folded := hosts.foldl (plainStep all_hosts strs) ([], [])
    .ok ((if folded.1.isEmpty then taskHosts else folded.1.map HostRef.obj), folded.2)
  else
    match objMode all_hosts taskHosts hosts [] [] with
    | .error e => .error e
    | .ok (sel, alls) =>
      .ok ((if sel.isEmpty then taskHosts else sel.map HostRef.obj), alls)

/-- The host of the scenario of the spec: name `web01`, group `web`, one
attribute `ip` holding the sequence with the single address. -/
def web01ex : Host :=
  ⟨"web01", ["web"], [("ip", PyVal.list [PyVal.str "10.0.0.5"])]⟩

/-- The notification of the scenario of the spec: `on_success` with
`on_tasks` naming `orchestrate`, not on-demand, not on-start. -/
def n1ex : Notification :=
  ⟨"n1", false, false, true, false, ["orchestrate"]⟩

/-- When a string is not contained in a list, filtering the list for
entries equal to it yields the empty list. -/
theorem filterBeqIsEmpty (l : List String) (a : String) (h : l.contains a = false) :
    (l.filter (fun x => x == a)).isEmpty = true := by
  rw [List.isEmpty_iff, List.filter_eq_nil_iff]
  intro x hx hxa
  rw [beq_iff_eq] at hxa
  subst hxa
  have hc : l.contains x = true := List.elem_iff.mpr hx
  rw [h] at hc
  exact Bool.noConfusion hc

/-- The group loop of the plain-string branch of `fetch_assets` appends
the host once per group appearing in the reference list. -/
theorem groupFoldEq (strs : List String) (host : Host) :
    ∀ (groups : List String) (acc : List Host),
      groups.foldl (fun hs g => if g ∈ strs then hs ++ [host] else hs) acc
        = acc ++ List.replicate (groups.filter (fun g => decide (g ∈ strs))).length host := by
  intro groups
  induction groups with
  | nil => intro acc; simp
  | cons g gs ih =>
    intro acc
    simp only [List.foldl_cons, List.filter_cons]
    by_cases hg : g ∈ strs
    · simp [hg, ih, List.replicate_succ]
    · simp [hg, ih]

/-- One step of the plain-string branch of `fetch_assets`: the wildcard
and the exact name select the host once, otherwise the group loop
contributes one copy per matching group; the all-hosts accumulator always
receives the host. -/
theorem plainStepEq (strs : List String) (acc : List Host × List Host) (host : Host) :
    plainStep true strs acc host =
      (acc.1 ++ (if "all" ∈ strs then [host]
                 else if host.name ∈ strs then [host]
                 else List.replicate (host.groups.filter (fun g => decide (g ∈ strs))).length host),
       acc.2 ++ [host]) := by
  by_cases hall : "all" ∈ strs
  · simp [plainStep, hall]
  · by_cases hn : host.name ∈ strs
    · simp [plainStep, hall, hn]
    · have hf := filterBeqIsEmpty strs host.name (by simpa using hn)
      simp [plainStep, hall, hn, hf, groupFoldEq]

/-- The whole plain-string loop of `fetch_assets`, as one pass appending
the per-host contributions. -/
theorem plainFoldEq (strs : List String) :
    ∀ (hosts : List Host) (acc : List Host × List Host),
      hosts.foldl (plainStep true strs) acc =
        (acc.1 ++ hosts.flatMap (fun h =>
           if "all" ∈ strs then [h]
           else if h.name ∈ strs then [h]
           else List.replicate (h.groups.filter (fun g => decide (g ∈ strs))).length h),
         acc.2 ++ hosts) := by
  intro hosts
  induction hosts with
  | nil => intro acc; simp
  | cons h hs ih =>
    intro acc
    simp only [List.foldl_cons, List.flatMap_cons]
    rw [plainStepEq, ih]
    simp

/-- Plain string references are recovered by `refStr`. -/
theorem filterMapRefStrMap (ss : List String) :
    (ss.map HostRef.str).filterMap refStr = ss := by
  induction ss with
  | nil => rfl
  | cons s rest ih => simp [refStr, ih]

/-- A list of plain string references is classified as all-strings. -/
theorem allStrRefMap (ss : List String) : (ss.map HostRef.str).all isStrRef = true := by
  induction ss with
  | nil => rfl
  | cons s rest ih => simp [isStrRef, ih]

/-- A nonempty list of object references is not classified as
all-strings. -/
theorem objsNotAllStr (objs : List Host) (h : objs ≠ []) :
    (objs.map HostRef.obj).all isStrRef = false := by
  cases objs with
  | nil => exact absurd rfl h
  | cons o os => simp [isStrRef]

/-- The inner object-matching loop, over a list of bound objects, decides
the name-equal-or-substring disjunction over the references. -/
theorem objMatchMap (host : Host) (objs : List Host) :
    objMatch host (objs.map HostRef.obj) =
      .ok (objs.any (fun th => host.name == th.name || strIn th.name host.name)) := by
  induction objs with
  | nil => rfl
  | cons o os ih =>
    simp only [List.map_cons, objMatch, List.any_cons]
    by_cases hc : (host.name == o.name || strIn o.name host.name) = true
    · simp [hc]
    · simp only [Bool.not_eq_true] at hc
      simp [hc, ih]

/-- The object-mode loop of `fetch_assets` selects exactly the hosts
matching some reference, in host order, and appends every host to the
all-hosts list. -/
theorem objModeEq (objs : List Host) :
    ∀ (hosts sel alls : List Host),
      objMode true (objs.map HostRef.obj) hosts sel alls =
        .ok (sel ++ hosts.filter
               (fun h => objs.any (fun th => h.name == th.name || strIn th.name h.name)),
             alls ++ hosts) := by
  intro hosts
  induction hosts with
  | nil => intro sel alls; simp [objMode]
  | cons h hs ih =>
    intro sel alls
    simp only [objMode, objMatchMap, List.filter_cons]
    by_cases hm : (objs.any fun th => h.name == th.name || strIn th.name h.name) = true
    · simp only [hm, if_true, ih]
      simp
    · simp only [Bool.not_eq_true] at hm
      simp only [hm, if_false, Bool.false_eq_true, ih]
      simp

/-- `fetch_assets` on an all-string reference list: the hosts field is
overwritten by the per-host contributions — one copy for a wildcard or
exact-name match, one copy per matching group otherwise — unless nothing
matched, and the all-hosts field is the full host list. -/
theorem fetchPlainEq (hosts : List Host) (ss : List String) :
    fetch_assets hosts (ss.map HostRef.str) true =
      .ok ((if (hosts.flatMap (fun h =>
              if "all" ∈ ss then [h]
              else if h.name ∈ ss then [h]
              else List.replicate (h.groups.filter (fun g => decide (g ∈ ss))).length h)).isEmpty
            then ss.map HostRef.str
            else (hosts.flatMap (fun h =>
              if "all" ∈ ss then [h]
              else if h.name ∈ ss then [h]
              else List.replicate (h.groups.filter (fun g => decide (g ∈ ss))).length h)).map
              HostRef.obj),
           hosts) := by
  have h1 : (ss.map HostRef.str).all isStrRef = true := allStrRefMap ss
  have h2 : (ss.map HostRef.str).filterMap refStr = ss := filterMapRefStrMap ss
  simp only [fetch_assets, h1, h2, plainFoldEq]
  simp

/-- `fetch_assets` on a nonempty all-object reference list: the hosts
field is overwritten by the filter of the hosts matching some reference
by name equality or substring occurrence, unless nothing matched, and the
all-hosts field is the full host list. -/
theorem fetchObjEq (hosts objs : List Host) (hne : objs ≠ []) :
    fetch_assets hosts (objs.map HostRef.obj) true =
      .ok ((if (hosts.filter (fun h =>
              objs.any (fun th => h.name == th.name || strIn th.name h.name))).isEmpty
            then objs.map HostRef.obj
            else (hosts.filter (fun h =>
              objs.any (fun th => h.name == th.name || strIn th.name h.name))).map
              HostRef.obj),
           hosts) := by
  have h1 : (objs.map HostRef.obj).all isStrRef = false := objsNotAllStr objs hne
  simp only [fetch_assets, h1, objModeEq]
  simp

/-- Splitting the expression loop of `inject` at any point: the first part
runs first and the second part continues from its result, any raise
aborting the whole loop. -/
theorem injectLoopAppend (hosts : List Host) :
    ∀ (l1 l2 : List String) (c : String),
      injectLoop hosts (l1 ++ l2) c =
        (match injectLoop hosts l1 c with
         | .ok c' => injectLoop hosts l2 c'
         | .error e => .error e) := by
  intro l1
  induction l1 with
  | nil => intro l2 c; rfl
  | cons v vs ih =>
    intro l2 c
    simp only [List.cons_append, injectLoop]
    cases processVariable hosts c v with
    | error e => rfl
    | ok c' => exact ih l2 c'

/-- An excluded expression is skipped: the loop body leaves the command
unchanged and consults neither the host list nor the traversal. -/
theorem processVariableExcluded (hosts : List Host) (c v : String) (h : excluded v = true) :
    processVariable hosts c v = .ok c := by
  simp [processVariable, h]

/-- When every expression is excluded the loop returns the command
unchanged. -/
theorem injectLoopAllExcluded (hosts : List Host) :
    ∀ (l : List String) (c : String), (∀ v ∈ l, excluded v = true) →
      injectLoop hosts l c = .ok c := by
  intro l
  induction l with
  | nil => intro c _; rfl
  | cons v vs ih =>
    intro c h
    simp only [injectLoop]
    rw [processVariableExcluded hosts c v (h v (by simp))]
    exact ih c (fun w hw => h w (by simp [hw]))

/-- When no action has failed status the scan finds nothing. -/
theorem findFailSuffixNone :
    ∀ (l : List Action), (∀ a ∈ l, a.status ≠ 1) → findFailSuffix l = none := by
  intro l
  induction l with
  | nil => intro _; rfl
  | cons a rest ih =>
    intro h
    have ha : (a.status == 1) = false := by
      simpa using h a (by simp)
    simp only [findFailSuffix, ha, Bool.false_eq_true, if_false]
    exact ih (fun b hb => h b (by simp [hb]))

/-- The scan returns the suffix starting at the first failing action. -/
theorem findFailSuffixSplit :
    ∀ (l₁ : List Action) (a : Action) (l₂ : List Action),
      (∀ b ∈ l₁, b.status ≠ 1) → a.status = 1 →
      findFailSuffix (l₁ ++ a :: l₂) = some (a :: l₂) := by
  intro l₁
  induction l₁ with
  | nil =>
    intro a l₂ _ ha
    simp [findFailSuffix, ha]
  | cons b rest ih =>
    intro a l₂ h ha
    have hb : (b.status == 1) = false := by
      simpa using h b (by simp)
    simp only [List.cons_append, findFailSuffix, hb, Bool.false_eq_true, if_false]
    exact ih a l₂ (fun x hx => h x (by simp [hx])) ha

/-- C1: for every notification list and task-name sequences, the
on_complete state of `filter_notifications_on_trigger` first removes
on_demand and then on_start notifications and returns the concatenation,
in this order, of the success-only group (kept only when no task failed
and `on_tasks` intersects the passed tasks), the failure-only group (kept
only when no task passed and `on_tasks` intersects the failed tasks) and
the mixed group (kept when `on_tasks` intersects either sequence); and in
particular the success-only notification `n1ex` on task `orchestrate`
fires when `orchestrate` passed and nothing failed, and does not fire
when `orchestrate` failed and nothing passed. -/
theorem c1_on_complete_partition :
    (∀ (notify_list : List Notification) (passed_tasks failed_tasks : List String),
      filter_notifications_on_trigger "on_complete" notify_list passed_tasks failed_tasks =
        some
          (((notify_list.filter (fun r => !r.on_demand)).filter (fun r => !r.on_start)).filter
              (fun nt => (nt.on_success && !nt.on_failure) &&
                (failed_tasks.isEmpty && tasksIntersect nt.on_tasks passed_tasks)) ++
           ((notify_list.filter (fun r => !r.on_demand)).filter (fun r => !r.on_start)).filter
              (fun nt => (nt.on_failure && !nt.on_success) &&
                (passed_tasks.isEmpty && tasksIntersect nt.on_tasks failed_tasks)) ++
           ((notify_list.filter (fun r => !r.on_demand)).filter (fun r => !r.on_start)).filter
              (fun nt => (nt.on_success && nt.on_failure) &&
                (tasksIntersect nt.on_tasks failed_tasks ||
                 tasksIntersect nt.on_tasks passed_tasks)))) ∧
    filter_notifications_on_trigger "on_complete" [n1ex] ["orchestrate"] [] = some [n1ex] ∧
    filter_notifications_on_trigger "on_complete" [n1ex] [] ["orchestrate"] = some [] := by
  refine ⟨?_, rfl, rfl⟩
  intro notify_list passed_tasks failed_tasks
  simp only [filter_notifications_on_trigger]
  simp [List.filter_filter, Bool.and_comm, Bool.and_left_comm, Bool.and_assoc]

/-- C2 counterexample: for the empty host list and the reference list
holding the single literal string `all`, the source does not overwrite
the hosts field with the (empty) selected list, so the field stays the
original string reference list rather than becoming the host list. -/
theorem c2_counterexample :
    fetch_assets [] [HostRef.str "all"] true = .ok ([HostRef.str "all"], []) ∧
    ([HostRef.str "all"] : List HostRef) ≠ ([] : List Host).map HostRef.obj :=
  ⟨rfl, by simp⟩

/-- C2 (amended): for every NON-EMPTY host list and every all-string
reference list containing the literal `all`, `fetch_assets` sets both the
hosts field and the all_hosts field to exactly the host list, in
iteration order. -/
theorem c2_wildcard_all (hosts : List Host) (ss : List String)
    (hall : "all" ∈ ss) (hne : hosts ≠ []) :
    fetch_assets hosts (ss.map HostRef.str) true = .ok (hosts.map HostRef.obj, hosts) := by
  have hne' : hosts.isEmpty = false := by
    cases hosts with
    | nil => exact absurd rfl hne
    | cons a l => rfl
  rw [fetchPlainEq]
  simp [hall, hne, hne']

/-- C2 witness: one host and the reference list `[all]`. -/
theorem c2_witness :
    fetch_assets [⟨"h1", [], []⟩] [HostRef.str "all"] true =
      .ok ([HostRef.obj ⟨"h1", [], []⟩], [⟨"h1", [], []⟩]) :=
  c2_wildcard_all [⟨"h1", [], []⟩] ["all"] (by simp) (by simp)

/-- C3: when no host matches the reference list (all-string references
matching no wildcard, name or group; or nonempty object references whose
names neither equal nor occur in any host name), `fetch_assets` raises
nothing, leaves the original reference list untouched, and still sets the
all_hosts field to the full host list. -/
theorem c3_zero_matches (hosts : List Host) (taskHosts : List HostRef)
    (h : (∃ ss : List String, taskHosts = ss.map HostRef.str ∧ "all" ∉ ss ∧
            ∀ hst ∈ hosts, hst.name ∉ ss ∧ ∀ g ∈ hst.groups, g ∉ ss) ∨
         (∃ objs : List Host, taskHosts = objs.map HostRef.obj ∧ objs ≠ [] ∧
            ∀ hst ∈ hosts, ∀ th ∈ objs,
              ¬(hst.name = th.name ∨ strIn th.name hst.name = true))) :
    fetch_assets hosts taskHosts true = .ok (taskHosts, hosts) := by
  rcases h with ⟨ss, rfl, hnall, hno⟩ | ⟨objs, rfl, hne, hno⟩
  · have hfm : hosts.flatMap (fun h =>
        if "all" ∈ ss then [h]
        else if h.name ∈ ss then [h]
        else List.replicate (h.groups.filter (fun g => decide (g ∈ ss))).length h) = [] := by
      rw [List.flatMap_eq_nil_iff]
      intro x hx
      obtain ⟨hn, hg⟩ := hno x hx
      have hfil : x.groups.filter (fun g => decide (g ∈ ss)) = [] := by
        rw [List.filter_eq_nil_iff]
        intro g hgm
        simpa using hg g hgm
      simp [hnall, hn, hfil]
    rw [fetchPlainEq]
    simp [hfm]
  · have hfil : hosts.filter
        (fun h => objs.any (fun th => h.name == th.name || strIn th.name h.name)) = [] := by
      rw [List.filter_eq_nil_iff]
      intro x hx
      rw [Bool.not_eq_true, List.any_eq_false]
      intro th hth
      have := hno x hx th hth
      simp only [not_or] at this
      simp [this.1, this.2]
    rw [fetchObjEq hosts objs hne]
    simp [hfil]

/-- C3 witness: one host, one non-matching string reference. -/
theorem c3_witness :
    fetch_assets [⟨"h1", ["g"], []⟩] [HostRef.str "nope"] true =
      .ok ([HostRef.str "nope"], [⟨"h1", ["g"], []⟩]) :=
  c3_zero_matches _ _ (Or.inl ⟨["nope"], rfl, by decide, by decide⟩)

/-- C4: `filter_actions_on_failed_status` returns the input unchanged when
no action has the failed status code, and returns the suffix starting at
the first failing action (dropping every earlier action) otherwise. -/
theorem c4_filter_actions :
    (∀ (action_list : List Action), (∀ a ∈ action_list, a.status ≠ 1) →
        filter_actions_on_failed_status action_list = action_list) ∧
    (∀ (l₁ : List Action) (a : Action) (l₂ : List Action),
        (∀ b ∈ l₁, b.status ≠ 1) → a.status = 1 →
        filter_actions_on_failed_status (l₁ ++ a :: l₂) = a :: l₂) := by
  constructor
  · intro l h
    simp [filter_actions_on_failed_status, findFailSuffixNone l h]
  · intro l₁ a l₂ h ha
    simp [filter_actions_on_failed_status, findFailSuffixSplit l₁ a l₂ h ha]

/-- C4 witness: `[A(pass), B(pass), C(fail), D(pass)]` yields `[C, D]`,
and a list without failures is returned unchanged. -/
theorem c4_witness :
    filter_actions_on_failed_status
        [⟨"A", 0⟩, ⟨"B", 0⟩, ⟨"C", 1⟩, ⟨"D", 0⟩] = [⟨"C", 1⟩, ⟨"D", 0⟩] ∧
    filter_actions_on_failed_status [⟨"A", 0⟩, ⟨"B", 0⟩] = [⟨"A", 0⟩, ⟨"B", 0⟩] :=
  ⟨c4_filter_actions.2 [⟨"A", 0⟩, ⟨"B", 0⟩] ⟨"C", 1⟩ [⟨"D", 0⟩] (by decide) rfl,
   c4_filter_actions.1 [⟨"A", 0⟩, ⟨"B", 0⟩] (by decide)⟩

/-- C5: when the expressions of the command are the earlier ones (which
all process successfully), then a non-excluded expression whose first
dot segment names no host of the injector, `inject` raises the
`TefloError` naming that node — and yields no output at all: the whole
call returns the error, never a partially substituted string. -/
theorem c5_absent_host (hosts : List Host) (command c' : String)
    (pre rest : List String) (v node : String) (segs : List String)
    (hvars : (findBraces command).map pyStrip = pre ++ v :: rest)
    (hpre : injectLoop hosts pre command = .ok c')
    (hex : excluded v = false)
    (hsplit : pySplit v '.' = node :: segs)
    (hnode : ∀ h ∈ hosts, h.name ≠ node) :
    inject hosts command = .error (.tefloError ("Node " ++ node ++ " not found!")) := by
  have hfind : hosts.find? (fun host => node == host.name) = none := by
    apply List.find?_eq_none.mpr
    intro h hh
    simpa using (hnode h hh).symm
  have hpv : processVariable hosts c' v =
      .error (.tefloError ("Node " ++ node ++ " not found!")) := by
    simp [processVariable, hex, hsplit, host_exist, hfind]
  have h1 : inject hosts command = injectLoop hosts (pre ++ v :: rest) command := by
    simp [inject, hvars]
  rw [h1, injectLoopAppend, hpre]
  simp only [injectLoop, hpv]

/-- C5 witness: no hosts and the single expression `x.y`. -/
theorem c5_witness :
    inject [] "\x7b x.y \x7d" = .error (.tefloError "Node x not found!") :=
  c5_absent_host [] "\x7b x.y \x7d" "\x7b x.y \x7d" [] [] "x.y" "x" ["y"]
    rfl rfl rfl rfl (by simp)

/-- C6 counterexample: the trimmed content `a b:c` CONTAINS the
word-followed-by-colon token `b:`, so the claim says `inject` leaves the
expression in its output byte-for-byte unchanged regardless of the host
list; but the anchored `re.match` does not exclude it (the pattern only
matches such a token as a prefix), the content is evaluated as a path
expression, and `inject` raises instead of producing any output. -/
theorem c6_counterexample :
    excluded "a b:c" = false ∧
    inject [] "\x7b a b:c \x7d" = .error (.tefloError "Node a b:c not found!") :=
  ⟨rfl, rfl⟩

/-- C6 (amended): any brace-delimited expression whose trimmed content
begins with `range`, with one of the characters pipe, dot, dollar, at, or
with a word-followed-by-colon token, is skipped by `inject` — never
resolved against the host list and never used as a replacement target —
regardless of the host list; in particular when every expression of the
input is excluded, `inject` returns the input byte-for-byte unchanged. -/
theorem c6_exclusion_passthrough :
    (∀ (hosts : List Host) (command expr : String), excluded expr = true →
        processVariable hosts command expr = .ok command) ∧
    (∀ (hosts : List Host) (command : String),
        (∀ v ∈ (findBraces command).map pyStrip, excluded v = true) →
        inject hosts command = .ok command) := by
  constructor
  · exact processVariableExcluded
  · intro hosts command h
    simp only [inject]
    split
    · rfl
    · exact injectLoopAllExcluded hosts _ command h

/-- C6 witness: the excluded expression `$foo`. -/
theorem c6_witness :
    processVariable [] "abc" "$foo" = .ok "abc" ∧
    inject [] "x \x7b $foo \x7d y" = .ok "x \x7b $foo \x7d y" :=
  ⟨c6_exclusion_passthrough.1 [] "abc" "$foo" rfl,
   c6_exclusion_passthrough.2 [] "x \x7b $foo \x7d y" (by decide)⟩

/-- C7: when a first pass of `inject` succeeds and its result holds no
brace-delimited substring, applying `inject` again is the identity:
injecting the result returns it unchanged, so the composition equals the
single pass. -/
theorem c7_idempotent (hosts : List Host) (text result : String)
    (h1 : inject hosts text = .ok result) (h2 : findBraces result = []) :
    inject hosts result = inject hosts text := by
  rw [h1]
  simp [inject, h2]

/-- C7 witness: the spec scenario command, fully resolved in one pass. -/
theorem c7_witness :
    inject [web01ex] "ping \x7b web01.ip[0] \x7d" = .ok "ping 10.0.0.5" ∧
    inject [web01ex] "ping 10.0.0.5" = inject [web01ex] "ping \x7b web01.ip[0] \x7d" :=
  ⟨rfl, c7_idempotent [web01ex] "ping \x7b web01.ip[0] \x7d" "ping 10.0.0.5" rfl rfl⟩

/-- C8 counterexample: an object reference with the EMPTY name. The
claim's condition — name equality or a non-empty-substring occurrence —
is false for the host named `a`, yet the source selects it, because the
Python substring test holds for the empty string. -/
theorem c8_counterexample :
    fetch_assets [⟨"a", [], []⟩] [HostRef.obj ⟨"", [], []⟩] true =
      .ok ([HostRef.obj ⟨"a", [], []⟩], [⟨"a", [], []⟩]) ∧
    ¬("a" = "" ∨ ("" ≠ "" ∧ strIn "" "a" = true)) :=
  ⟨rfl, by decide⟩

/-- C8 (amended): in object mode (nonempty reference list of bound
objects), a host is selected exactly when its name equals some referenced
name or the referenced name occurs as a substring — possibly empty — of
the host name; the selection is a filter of the host list, so each host
is added at most once. -/
theorem c8_object_mode (hosts objs : List Host) (hne : objs ≠ []) :
    fetch_assets hosts (objs.map HostRef.obj) true =
      .ok
        ((if (hosts.filter (fun h =>
              objs.any (fun th => h.name == th.name || strIn th.name h.name))).isEmpty
          then objs.map HostRef.obj
          else (hosts.filter (fun h =>
              objs.any (fun th => h.name == th.name || strIn th.name h.name))).map
              HostRef.obj),
         hosts) :=
  fetchObjEq hosts objs hne

/-- C8 witness: the referenced name `web` matches the host `web01` by the
substring test. -/
theorem c8_witness :
    fetch_assets [⟨"web01", [], []⟩] [HostRef.obj ⟨"web", [], []⟩] true =
      .ok ([HostRef.obj ⟨"web01", [], []⟩], [⟨"web01", [], []⟩]) :=
  c8_object_mode [⟨"web01", [], []⟩] [⟨"web", [], []⟩] (by simp)

/-- C9 counterexample: a host whose two groups both appear in the
reference list is appended twice to the selected list — the group loop of
the source has no break — contradicting the claim that a host matched via
group membership is added only once. -/
theorem c9_counterexample :
    fetch_assets [⟨"h", ["g1", "g2"], []⟩] [HostRef.str "g1", HostRef.str "g2"] true =
      .ok ([HostRef.obj ⟨"h", ["g1", "g2"], []⟩, HostRef.obj ⟨"h", ["g1", "g2"], []⟩],
           [⟨"h", ["g1", "g2"], []⟩]) :=
  rfl

/-- C9 (amended): in plain-string mode a host matched by the literal
`all` or by its exact name contributes exactly one copy and is not
re-added by any later check; a host matched only via group membership is
appended once per group of the host appearing in the reference list, so
it can appear several times in the selected list. -/
theorem c9_plain_mode (hosts : List Host) (ss : List String) :
    fetch_assets hosts (ss.map HostRef.str) true =
      .ok
        (let sel := hosts.flatMap (fun h =>
            if "all" ∈ ss then [h]
            else if h.name ∈ ss then [h]
            else List.replicate (h.groups.filter (fun g => decide (g ∈ ss))).length h);
         ((if sel.isEmpty then ss.map HostRef.str else sel.map HostRef.obj), hosts)) :=
  fetchPlainEq hosts ss

/-- C10: `inject` detects expressions after stripping whitespace but
replaces only the substring of an opening brace, one space, the stripped
expression, one space and a closing brace: the unspaced spelling of the
spec scenario expression is evaluated (with no hosts it raises the
node-not-found error, so it is not excluded) yet the output keeps the
original braced substring unreplaced, while the one-space spelling is
replaced by the address. -/
theorem c10_replacement_spacing :
    inject [web01ex] "\x7bweb01.ip[0]\x7d" = .ok "\x7bweb01.ip[0]\x7d" ∧
    inject [web01ex] "\x7b web01.ip[0] \x7d" = .ok "10.0.0.5" ∧
    inject [] "\x7bweb01.ip[0]\x7d" = .error (.tefloError "Node web01 not found!") :=
  ⟨rfl, rfl, rfl⟩

end Teflo

